import Mathlib

/-!
Shallow embedding of `serial_bridge.py` (triplepoint/ansible-radio-bridge).

The script reads newline-delimited frames from a serial device, skips frames
whose first character is the diagnostic marker, decodes the rest via
`parse_message` (JSON object whose `msg` field is expanded into alternating
key/value tokens), stamps `_timestamp`, and publishes to an MQTT topic derived
from `_sender_id`.

Modelling conventions:
- Python's `json` module is external library code; a `Frame` carries the raw
  text line together with the result of `json.loads` on it (`Except Unit
  JValue`, where `.error` stands for `json.JSONDecodeError`).
- JSON numbers are abstracted to `Int` (no claim computes with numeric
  values); the `_timestamp` float produced by `datetime.now` is passed in as
  an opaque `JValue` parameter.
- Python `dict` (insertion-ordered, unique keys) is an association list;
  `dictSet` updates in place or appends, `dictDel` removes, `dictGet` looks up.
- Python exceptions are `PyError`; code that lets an exception propagate
  produces `StepOutcome.raised`.
-/

namespace SerialBridge

/-- A JSON value as produced by Python's `json.loads`: `None`, booleans,
numbers (abstracted to `Int`), strings, arrays and objects. -/
inductive JValue where
  | jnull
  | jbool (b : Bool)
  | jnum (n : Int)
  | jstr (s : String)
  | jarr (elems : List JValue)
  | jobj (fields : List (String × JValue))

/-- A Python `dict` with string keys and JSON values, as an insertion-ordered
association list (Python dicts preserve insertion order and have unique keys). -/
abbrev Dict := List (String × JValue)

/-- Python exceptions relevant to `serial_bridge.py`. -/
inductive PyError where
  | jsonDecodeError
  | keyError (k : String)
  | typeError
  | attributeError
  | indexError

/-- `d[k]` as a total lookup: the value stored at key `k`, if any. -/
def dictGet (d : Dict) (k : String) : Option JValue :=
  match d with
  | [] => none
  | (k2, v) :: rest => if k2 = k then some v else dictGet rest k

/-- `k in d`: whether the dict has an entry for `k`. -/
def dictContains (d : Dict) (k : String) : Bool :=
  match d with
  | [] => false
  | (k2, _) :: rest => if k2 = k then true else dictContains rest k

/-- `d[k] = v`: replace the value in place when the key exists (Python keeps
the original position), otherwise append a new entry at the end. -/
def dictSet (d : Dict) (k : String) (v : JValue) : Dict :=
  match d with
  | [] => [(k, v)]
  | (k2, v2) :: rest => if k2 = k then (k, v) :: rest else (k2, v2) :: dictSet rest k v

/-- `del d[k]`: remove the entry for `k`. -/
def dictDel (d : Dict) (k : String) : Dict :=
  match d with
  | [] => []
  | (k2, v2) :: rest => if k2 = k then dictDel rest k else (k2, v2) :: dictDel rest k

/-- Python's whitespace test for `str.split()` without arguments. -/
def isSpace (c : Char) : Bool :=
  c == ' ' || c == '\t' || c == '\n' || c == '\r' || c == '\x0b' || c == '\x0c'

/-- Accumulator loop for `pySplit`: walk the characters, collecting the
current token (reversed) and emitting it at each whitespace run boundary. -/
def pySplitAux : List Char → List Char → List String
  | [], [] => []
  | [], cur => [String.mk cur.reverse]
  | c :: rest, cur =>
    if isSpace c then
      match cur with
      | [] => pySplitAux rest []
      | _ :: _ => String.mk cur.reverse :: pySplitAux rest []
    else pySplitAux rest (c :: cur)

/-- Python `str.split()` with no arguments: split on runs of whitespace,
discarding leading and trailing whitespace (so the empty string gives `[]`). -/
def pySplit (s : String) : List String :=
  pySplitAux s.data []

/-- The `while elements:` loop of `parse_message`: pop a key token, pop the
value token when one remains (else use the empty string), and assign
`data[key] = value`. -/
def pairUp (data : Dict) (elements : List String) : Dict :=
  match elements with
  | [] => data
  | [key] => dictSet data key (JValue.jstr "")
  | key :: value :: rest => pairUp (dictSet data key (JValue.jstr value)) rest

/-- `parse_message(line)`: `json.loads`, then `data['msg']` (a `TypeError`
when the parsed value is not an object, a `KeyError` when the key is absent),
`del data['msg']`, `message.split()` (an `AttributeError` when the value is
not a string), and the pairing loop. The input is the `json.loads` result on
the line; a parse failure is `json.JSONDecodeError`. -/
def parse_message (parsed : Except Unit JValue) : Except PyError Dict :=
  match parsed with
  | .error _ => .error PyError.jsonDecodeError
  | .ok (.jobj data) =>
    match dictGet data "msg" with
    | none => .error (PyError.keyError "msg")
    | some (.jstr message) => .ok (pairUp (dictDel data "msg") (pySplit message))
    | some _ => .error PyError.attributeError
  | .ok _ => .error PyError.typeError

/-- Python `repr` of a `json.loads` value, used by `str` on containers. -/
def pyRepr : JValue → String
  | .jnull => "None"
  | .jbool b => if b then "True" else "False"
  | .jnum n => toString n
  | .jstr s => "\x27" ++ s ++ "\x27"
  | .jarr es => "[" ++ String.intercalate ", " (es.attach.map (fun e => pyRepr e.val)) ++ "]"
  | .jobj fs =>
      "\x7b" ++
        String.intercalate ", "
          (fs.attach.map (fun f => "\x27" ++ f.val.1 ++ "\x27: " ++ pyRepr f.val.2)) ++
      "\x7d"
decreasing_by
  · have := List.sizeOf_lt_of_mem e.property
    simp only [JValue.jarr.sizeOf_spec]
    omega
  · have h1 := List.sizeOf_lt_of_mem f.property
    have h2 : sizeOf f.val.2 < sizeOf f.val := by
      obtain ⟨k, v⟩ := f.val
      simp only [Prod.mk.sizeOf_spec]
      omega
    simp only [JValue.jobj.sizeOf_spec]
    omega

/-- Python `"...{}".format(v)`, i.e. `str(v)`: a string formats as itself,
scalars as their textual form, containers as their `repr`-style rendering. -/
def formatVal : JValue → String
  | .jnull => "None"
  | .jbool b => if b then "True" else "False"
  | .jnum n => toString n
  | .jstr s => s
  | .jarr es => pyRepr (JValue.jarr es)
  | .jobj fs => pyRepr (JValue.jobj fs)

/-- What one pass of the read loop observably does with a frame. -/
inductive StepOutcome where
  /-- The frame started with the diagnostic marker and was dropped before
  `parse_and_publish` was called: no decode, no publish. -/
  | filtered
  /-- `json.JSONDecodeError` was caught: the frame was logged and skipped.
  (The handler's `continue` on line 59 sits outside any loop — a Python
  `SyntaxError`; this constructor models the handler's evident intent,
  announced by its own log line, of skipping the frame.) -/
  | skipped
  /-- `publish.single(topic, ...)` was reached with the serialized event. -/
  | published (topic : String) (payload : Dict)
  /-- An uncaught exception propagated out of the loop body, ending the loop. -/
  | raised (e : PyError)

/-- `parse_and_publish(line, ...)`: decode with `parse_message`, catching only
`json.JSONDecodeError` (skip); let every other exception propagate; set
`data['_timestamp']`; derive the topic from `data['_sender_id']` (an uncaught
`KeyError` when absent); publish. `tstamp` is the opaque
`datetime.now(timezone.utc).timestamp()` value. -/
def parse_and_publish (parsed : Except Unit JValue) (tstamp : JValue) : StepOutcome :=
  match parse_message parsed with
  | .error PyError.jsonDecodeError => StepOutcome.skipped
  | .error e => StepOutcome.raised e
  | .ok data =>
    let data2 := dictSet data "_timestamp" tstamp
    match dictGet data2 "_sender_id" with
    | none => StepOutcome.raised (PyError.keyError "_sender_id")
    | some sid => StepOutcome.published ("home/radio/client" ++ formatVal sid) data2

/-- One frame read from the serial device: the raw text line together with
the result of the external `json.loads` on it. -/
structure Frame where
  raw : String
  parsed : Except Unit JValue

/-- One iteration of `main`'s `while(1)` loop on a frame that `readline()`
returned: evaluate `line[0] == "*"` — an `IndexError` when the line is empty,
a `continue` (drop) when the first character is the marker — and otherwise
hand the line to `parse_and_publish`. -/
def loopStep (fr : Frame) (tstamp : JValue) : StepOutcome :=
  match fr.raw.data with
  | [] => StepOutcome.raised PyError.indexError
  | c :: _ => if c = '*' then StepOutcome.filtered else parse_and_publish fr.parsed tstamp

/-- Run `main`'s loop over a finite prefix of the frame stream (each frame
with the timestamp `datetime.now` would return for it). An uncaught exception
terminates the loop; every other outcome lets the loop continue. -/
def runFrames : List (Frame × JValue) → List StepOutcome
  | [] => []
  | (fr, ts) :: rest =>
    match loopStep fr ts with
    | StepOutcome.raised e => [StepOutcome.raised e]
    | o => o :: runFrames rest

/-- Number of `publish.single` calls an outcome performed. -/
def publishCount : StepOutcome → Nat
  | StepOutcome.published _ _ => 1
  | _ => 0

/-- One iteration of the `while elements:` loop body in `parse_message`:
returns the updated dict and the remaining token list. (Only called when
`elements` is non-empty.) -/
def loopBody (data : Dict) (elements : List String) : Dict × List String :=
  match elements with
  | [] => (data, [])
  | [key] => (dictSet data key (JValue.jstr ""), [])
  | key :: value :: rest => (dictSet data key (JValue.jstr value), rest)

/-- The key/value pairs the token list expands to, in assignment order: token
1 with token 2, token 3 with token 4, ..., a final unpaired token with `""`. -/
def pairList : List String → List (String × String)
  | [] => []
  | [key] => [(key, "")]
  | key :: value :: rest => (key, value) :: pairList rest

/-- The keys assigned by the expansion, in assignment order. -/
def pairKeys (ts : List String) : List String :=
  (pairList ts).map Prod.fst

/-- The value the last assignment to `k` in the expansion writes, if any. -/
def lastVal (ts : List String) (k : String) : Option String :=
  (((pairList ts).filter (fun p => p.1 == k)).map Prod.snd).getLast?

/-- Two-step induction on lists, matching the recursion pattern of `pairUp`,
`pairList` and `loopBody`. -/
def twoStepInduction {motive : List String → Sort _}
    (nil : motive []) (single : ∀ a, motive [a])
    (cons2 : ∀ a b l, motive l → motive (a :: b :: l)) : ∀ l, motive l
  | [] => nil
  | [a] => single a
  | a :: b :: l => cons2 a b l (twoStepInduction nil single cons2 l)

end SerialBridge

namespace SerialBridge

theorem dictGet_dictSet_self (d : Dict) (k : String) (v : JValue) :
    dictGet (dictSet d k v) k = some v := by
  induction d with
  | nil => simp [dictSet, dictGet]
  | cons p rest ih =>
    obtain ⟨k2, v2⟩ := p
    by_cases h : k2 = k <;> simp [dictSet, dictGet, h, ih]

theorem dictGet_dictSet_ne (d : Dict) (k k2 : String) (v : JValue) (h : k ≠ k2) :
    dictGet (dictSet d k v) k2 = dictGet d k2 := by
  induction d with
  | nil => simp [dictSet, dictGet, h]
  | cons p rest ih =>
    obtain ⟨k3, v3⟩ := p
    by_cases h3 : k3 = k
    · subst h3
      simp [dictSet, dictGet, h]
    · simp [dictSet, dictGet, h3, ih]

theorem dictContains_dictSet_ne (d : Dict) (k k2 : String) (v : JValue) (h : k2 ≠ k) :
    dictContains (dictSet d k v) k2 = dictContains d k2 := by
  induction d with
  | nil => simp [dictSet, dictContains, Ne.symm h]
  | cons p rest ih =>
    obtain ⟨k3, v3⟩ := p
    by_cases h3 : k3 = k
    · subst h3
      simp [dictSet, dictContains, Ne.symm h]
    · simp [dictSet, dictContains, h3, ih]

theorem length_dictSet_of_not_contains (d : Dict) (k : String) (v : JValue)
    (h : dictContains d k = false) :
    (dictSet d k v).length = d.length + 1 := by
  induction d with
  | nil => simp [dictSet]
  | cons p rest ih =>
    obtain ⟨k2, v2⟩ := p
    by_cases h2 : k2 = k
    · simp [dictContains, h2] at h
    · simp [dictContains, h2] at h
      simp [dictSet, h2, ih h]

theorem dictGet_eq_none_iff (d : Dict) (k : String) :
    dictGet d k = none ↔ dictContains d k = false := by
  induction d with
  | nil => simp [dictGet, dictContains]
  | cons p rest ih =>
    obtain ⟨k2, v2⟩ := p
    by_cases h2 : k2 = k <;> simp [dictGet, dictContains, h2, ih]

theorem dictContains_eq_mem (d : Dict) (k : String) :
    dictContains d k = true ↔ k ∈ d.map Prod.fst := by
  induction d with
  | nil => simp [dictContains]
  | cons p rest ih =>
    obtain ⟨k2, v2⟩ := p
    simp only [List.map_cons, List.mem_cons]
    by_cases h2 : k2 = k
    · subst h2
      simp [dictContains]
    · simp only [dictContains, if_neg h2, ih]
      constructor
      · exact Or.inr
      · rintro (hh | hh)
        · exact absurd hh.symm h2
        · exact hh

theorem dictDel_of_not_contains (d : Dict) (k : String) (h : dictContains d k = false) :
    dictDel d k = d := by
  induction d with
  | nil => simp [dictDel]
  | cons p rest ih =>
    obtain ⟨k2, v2⟩ := p
    by_cases h2 : k2 = k
    · simp [dictContains, h2] at h
    · simp [dictContains, h2] at h
      simp [dictDel, h2, ih h]

theorem length_dictDel_nodup (d : Dict) (k : String)
    (hnd : (d.map Prod.fst).Nodup) (hc : dictContains d k = true) :
    (dictDel d k).length + 1 = d.length := by
  induction d with
  | nil => simp [dictContains] at hc
  | cons p rest ih =>
    obtain ⟨k2, v2⟩ := p
    simp only [List.map_cons, List.nodup_cons] at hnd
    by_cases h2 : k2 = k
    · subst h2
      have hrest : dictContains rest k2 = false := by
        rcases h : dictContains rest k2 with _ | _
        · rfl
        · exact absurd ((dictContains_eq_mem rest k2).mp h) hnd.1
      simp [dictDel, dictDel_of_not_contains rest k2 hrest]
    · simp only [dictContains, if_neg h2] at hc
      simp only [dictDel, if_neg h2, List.length_cons]
      rw [← ih hnd.2 hc]

end SerialBridge

namespace SerialBridge

theorem pairKeys_nil : pairKeys [] = [] := rfl

theorem pairKeys_single (a : String) : pairKeys [a] = [a] := rfl

theorem pairKeys_cons2 (a b : String) (l : List String) :
    pairKeys (a :: b :: l) = a :: pairKeys l := rfl

theorem pairUp_get_of_not_mem (ts : List String) (k : String) (hk : k ∉ pairKeys ts) :
    ∀ d : Dict, dictGet (pairUp d ts) k = dictGet d k := by
  induction ts using twoStepInduction with
  | nil => intro d; rfl
  | single a =>
    intro d
    simp only [pairKeys_single, List.mem_singleton] at hk
    simpa [pairUp] using dictGet_dictSet_ne d a k (JValue.jstr "") (fun h => hk h.symm)
  | cons2 a b l ih =>
    intro d
    simp only [pairKeys_cons2, List.mem_cons, not_or] at hk
    rw [show pairUp d (a :: b :: l) = pairUp (dictSet d a (JValue.jstr b)) l from rfl]
    rw [ih hk.2]
    exact dictGet_dictSet_ne d a k (JValue.jstr b) (fun h => hk.1 h.symm)

theorem pairUp_length (ts : List String) (hnd : (pairKeys ts).Nodup) :
    ∀ d : Dict, (∀ k ∈ pairKeys ts, dictContains d k = false) →
    (pairUp d ts).length = d.length + (ts.length + 1) / 2 := by
  induction ts using twoStepInduction with
  | nil => intro d _; simp [pairUp]
  | single a =>
    intro d hfresh
    have := hfresh a (by simp [pairKeys_single])
    simp [pairUp, length_dictSet_of_not_contains d a (JValue.jstr "") this]
  | cons2 a b l ih =>
    intro d hfresh
    simp only [pairKeys_cons2, List.nodup_cons] at hnd
    have ha : dictContains d a = false := hfresh a (by simp [pairKeys_cons2])
    have hlen := length_dictSet_of_not_contains d a (JValue.jstr b) ha
    have hfresh2 : ∀ k ∈ pairKeys l, dictContains (dictSet d a (JValue.jstr b)) k = false := by
      intro k hkl
      have hne : k ≠ a := fun h => hnd.1 (h ▸ hkl)
      rw [dictContains_dictSet_ne d a k (JValue.jstr b) hne]
      exact hfresh k (by simp [pairKeys_cons2, hkl])
    rw [show pairUp d (a :: b :: l) = pairUp (dictSet d a (JValue.jstr b)) l from rfl]
    rw [ih hnd.2 _ hfresh2, hlen]
    simp only [List.length_cons]
    omega

theorem pairUp_last_of_odd (ts : List String) (h : ts ≠ []) (hodd : ts.length % 2 = 1) :
    ∀ d : Dict, dictGet (pairUp d ts) (ts.getLast h) = some (JValue.jstr "") := by
  induction ts using twoStepInduction with
  | nil => exact absurd rfl h
  | single a =>
    intro d
    simp [List.getLast, pairUp, dictGet_dictSet_self]
  | cons2 a b l ih =>
    intro d
    have hl : l ≠ [] := by
      intro he
      subst he
      simp at hodd
    have hodd2 : l.length % 2 = 1 := by
      simp only [List.length_cons] at hodd
      omega
    have hlast : (a :: b :: l).getLast h = l.getLast hl := by
      rw [List.getLast_cons (by simp [hl] : b :: l ≠ [])]
      exact List.getLast_cons hl
    rw [hlast]
    rw [show pairUp d (a :: b :: l) = pairUp (dictSet d a (JValue.jstr b)) l from rfl]
    exact ih hl hodd2 _

theorem filter_pairList_eq_nil_of_not_mem (ts : List String) (k : String)
    (hk : k ∉ pairKeys ts) :
    (pairList ts).filter (fun p => p.1 == k) = [] := by
  rw [List.filter_eq_nil_iff]
  intro p hp
  intro hbeq
  apply hk
  have : p.1 = k := by simpa using hbeq
  exact this ▸ List.mem_map_of_mem Prod.fst hp

theorem filter_pairList_ne_nil_of_mem (ts : List String) (k : String)
    (hk : k ∈ pairKeys ts) :
    (pairList ts).filter (fun p => p.1 == k) ≠ [] := by
  intro hnil
  rw [List.filter_eq_nil_iff] at hnil
  obtain ⟨p, hp, hfst⟩ := List.mem_map.mp hk
  exact hnil p hp (by simp [hfst])

theorem pairUp_get_of_mem (ts : List String) (k : String) (hk : k ∈ pairKeys ts) :
    ∀ d : Dict, dictGet (pairUp d ts) k = Option.map JValue.jstr (lastVal ts k) := by
  induction ts using twoStepInduction with
  | nil => simp [pairKeys_nil] at hk
  | single a =>
    intro d
    simp only [pairKeys_single, List.mem_singleton] at hk
    subst hk
    simp [pairUp, lastVal, pairList, dictGet_dictSet_self]
  | cons2 a b l ih =>
    intro d
    rw [show pairUp d (a :: b :: l) = pairUp (dictSet d a (JValue.jstr b)) l from rfl]
    by_cases hmem : k ∈ pairKeys l
    · rw [ih hmem]
      congr 1
      have hne := filter_pairList_ne_nil_of_mem l k hmem
      simp only [lastVal, pairList, List.filter_cons]
      by_cases hab : a = k
      · simp only [hab, beq_self_eq_true, if_pos trivial]
        rcases hq : (pairList l).filter (fun p => p.1 == k) with _ | ⟨q, qs⟩
        · exact absurd hq hne
        · simp [hq]
      · simp [hab]
    · simp only [pairKeys_cons2, List.mem_cons] at hk
      rcases hk with hk | hk
      · subst hk
        rw [pairUp_get_of_not_mem l k hmem]
        rw [dictGet_dictSet_self]
        simp [lastVal, pairList, List.filter_cons,
          filter_pairList_eq_nil_of_not_mem l k hmem]
      · exact absurd hk hmem

end SerialBridge

namespace SerialBridge

theorem parse_message_of_msg_str (data : Dict) (message : String)
    (h : dictGet data "msg" = some (JValue.jstr message)) :
    parse_message (Except.ok (JValue.jobj data)) =
      Except.ok (pairUp (dictDel data "msg") (pySplit message)) := by
  simp [parse_message, h]

theorem parse_message_of_no_msg (data : Dict)
    (h : dictGet data "msg" = none) :
    parse_message (Except.ok (JValue.jobj data)) =
      Except.error (PyError.keyError "msg") := by
  simp [parse_message, h]

theorem parse_message_ne_indexError (parsed : Except Unit JValue) :
    parse_message parsed ≠ Except.error PyError.indexError := by
  unfold parse_message
  rcases parsed with u | v
  · simp
  · rcases v with _ | b | n | s | es | data <;> simp
    rcases hg : dictGet data "msg" with _ | w
    · simp
    · rcases w <;> simp

theorem parse_and_publish_ne_raised_indexError (parsed : Except Unit JValue) (tstamp : JValue) :
    parse_and_publish parsed tstamp ≠ StepOutcome.raised PyError.indexError := by
  unfold parse_and_publish
  rcases hpm : parse_message parsed with e | data
  · rcases e with _ | k | _ | _ | _ <;> simp
    exact absurd hpm (parse_message_ne_indexError parsed)
  · rcases hg : dictGet (dictSet data "_timestamp" tstamp) "_sender_id" with _ | sid <;> simp [hg]

theorem parse_and_publish_no_sender (parsed : Except Unit JValue) (tstamp : JValue)
    (data : Dict) (hpm : parse_message parsed = Except.ok data)
    (hs : dictGet data "_sender_id" = none) :
    parse_and_publish parsed tstamp = StepOutcome.raised (PyError.keyError "_sender_id") := by
  have hs2 : dictGet (dictSet data "_timestamp" tstamp) "_sender_id" = none := by
    rw [dictGet_dictSet_ne data "_timestamp" "_sender_id" tstamp (by decide)]
    exact hs
  simp [parse_and_publish, hpm, hs2]

theorem loopStep_nonmarker (fr : Frame) (tstamp : JValue) (c : Char) (cs : List Char)
    (hraw : fr.raw.data = c :: cs) (hc : c ≠ '*') :
    loopStep fr tstamp = parse_and_publish fr.parsed tstamp := by
  simp [loopStep, hraw, hc]

end SerialBridge

namespace SerialBridge

/-- C1: a frame whose first character is the diagnostic marker is dropped by
the read loop's `continue` before `parse_and_publish` is invoked: the outcome
is `filtered` (no decode happens) and no publish call is made. -/
theorem c1_diagnostic_frame_filtered (fr : Frame) (tstamp : JValue) (cs : List Char)
    (h : fr.raw.data = '*' :: cs) :
    loopStep fr tstamp = StepOutcome.filtered ∧
    publishCount (loopStep fr tstamp) = 0 := by
  have h1 : loopStep fr tstamp = StepOutcome.filtered := by
    simp [loopStep, h]
  exact ⟨h1, by rw [h1]; rfl⟩

/-- Witness for C1 at the concrete diagnostic frame with raw line starting
with the marker character. -/
theorem c1_witness :
    loopStep ⟨"*boot", Except.error ()⟩ (JValue.jnum 0) = StepOutcome.filtered ∧
    publishCount (loopStep ⟨"*boot", Except.error ()⟩ (JValue.jnum 0)) = 0 :=
  c1_diagnostic_frame_filtered ⟨"*boot", Except.error ()⟩ (JValue.jnum 0) "boot".data rfl

/-- C2: when the `msg` value splits into an odd number of tokens, decoding
runs the pairing loop on them and the final unpaired token is mapped to the
empty string; in particular the two examples from the specification hold. -/
theorem c2_odd_tokens_last_empty (data : Dict) (message : String)
    (hmsg : dictGet data "msg" = some (JValue.jstr message))
    (hne : pySplit message ≠ [])
    (hodd : (pySplit message).length % 2 = 1) :
    (parse_message (Except.ok (JValue.jobj data)) =
        Except.ok (pairUp (dictDel data "msg") (pySplit message)) ∧
      dictGet (pairUp (dictDel data "msg") (pySplit message)) ((pySplit message).getLast hne) =
        some (JValue.jstr "")) ∧
    parse_message (Except.ok (JValue.jobj [("msg", JValue.jstr "a b c")])) =
      Except.ok [("a", JValue.jstr "b"), ("c", JValue.jstr "")] ∧
    parse_message (Except.ok (JValue.jobj
        [("one", JValue.jstr "fish"), ("two", JValue.jstr "fish"),
         ("msg", JValue.jstr "red fish poop fish")])) =
      Except.ok [("one", JValue.jstr "fish"), ("two", JValue.jstr "fish"),
        ("red", JValue.jstr "fish"), ("poop", JValue.jstr "fish")] :=
  ⟨⟨parse_message_of_msg_str data message hmsg, pairUp_last_of_odd _ hne hodd _⟩, rfl, rfl⟩

/-- Witness for C2 at the record with `msg` value splitting into the odd
token list of three tokens. -/
theorem c2_witness :
    dictGet (pairUp (dictDel [("msg", JValue.jstr "a b c")] "msg") (pySplit "a b c"))
        ((pySplit "a b c").getLast (by decide)) = some (JValue.jstr "") :=
  ((c2_odd_tokens_last_empty [("msg", JValue.jstr "a b c")] "a b c" rfl (by decide)
      (by decide)).1).2

/-- C3 counterexample: the record with fields `a` and `msg`, whose `msg`
expands to two tokens colliding with the structured key `a`, decodes to a
single-field event, not to the (2 − 1) + 2/2 = 2 fields the claim predicts. -/
theorem c3_counterexample :
    parse_message (Except.ok (JValue.jobj [("a", JValue.jstr "x"), ("msg", JValue.jstr "a y")])) =
      Except.ok [("a", JValue.jstr "y")] ∧
    (pySplit "a y").length = 2 ∧
    ([("a", JValue.jstr "y")] : Dict).length ≠ 2 - 1 + 2 / 2 :=
  ⟨rfl, rfl, by decide⟩

/-- C3 (amended): for a record with distinct keys whose `msg` value splits
into an even number of tokens, provided the expansion keys are pairwise
distinct and collide neither with each other nor with the remaining
structured keys, the decoded event's field count equals
(original field count − 1) + tokens/2. -/
theorem c3_even_tokens_field_count (data : Dict) (message : String)
    (hmsg : dictGet data "msg" = some (JValue.jstr message))
    (hnd : (data.map Prod.fst).Nodup)
    (hkeys : (pairKeys (pySplit message)).Nodup)
    (hfresh : ∀ k ∈ pairKeys (pySplit message), dictContains (dictDel data "msg") k = false)
    (heven : (pySplit message).length % 2 = 0) :
    ∃ ev : Dict, parse_message (Except.ok (JValue.jobj data)) = Except.ok ev ∧
      ev.length = (data.length - 1) + (pySplit message).length / 2 := by
  refine ⟨_, parse_message_of_msg_str data message hmsg, ?_⟩
  rw [pairUp_length _ hkeys _ hfresh]
  have hc : dictContains data "msg" = true := by
    rcases h : dictContains data "msg" with _ | _
    · rw [← dictGet_eq_none_iff] at h
      rw [h] at hmsg
      cases hmsg
    · rfl
  have hdel := length_dictDel_nodup data "msg" hnd hc
  omega

/-- Witness for C3 at the spec's even-token example record: 3 original
fields, 4 tokens, so the decoded event has (3 − 1) + 2 = 4 fields. -/
theorem c3_witness :
    ∃ ev : Dict,
      parse_message (Except.ok (JValue.jobj
        [("one", JValue.jstr "fish"), ("two", JValue.jstr "fish"),
         ("msg", JValue.jstr "red fish poop fish")])) = Except.ok ev ∧
      ev.length = (3 - 1) + (pySplit "red fish poop fish").length / 2 :=
  c3_even_tokens_field_count
    [("one", JValue.jstr "fish"), ("two", JValue.jstr "fish"),
     ("msg", JValue.jstr "red fish poop fish")]
    "red fish poop fish" rfl (by decide) (by decide) (by decide) (by decide)

/-- C4: whenever a key is assigned by the free-text expansion, its value in
the decoded event is the one written by the last expansion assignment to that
key — overwriting any same-named structured field and any earlier expansion
assignment (preserve-last-wins). -/
theorem c4_expansion_last_wins (data : Dict) (message : String)
    (hmsg : dictGet data "msg" = some (JValue.jstr message))
    (k : String) (hk : k ∈ pairKeys (pySplit message)) :
    ∃ ev : Dict, parse_message (Except.ok (JValue.jobj data)) = Except.ok ev ∧
      dictGet ev k = Option.map JValue.jstr (lastVal (pySplit message) k) :=
  ⟨_, parse_message_of_msg_str data message hmsg, pairUp_get_of_mem _ k hk _⟩

/-- Witness for C4 at a record whose structured field `a` collides with two
expansion assignments to `a`; the decoded value is the last one written. -/
theorem c4_witness :
    ∃ ev : Dict,
      parse_message (Except.ok (JValue.jobj
        [("a", JValue.jstr "x"), ("msg", JValue.jstr "a y a z")])) = Except.ok ev ∧
      dictGet ev "a" = Option.map JValue.jstr (lastVal (pySplit "a y a z") "a") :=
  c4_expansion_last_wins [("a", JValue.jstr "x"), ("msg", JValue.jstr "a y a z")]
    "a y a z" rfl "a" (by decide)

/-- C5 counterexample: a frame parsing to an object without `msg` makes the
loop iteration raise `KeyError` for the key, which is uncaught — the run over
the two-frame sequence aborts at the first frame and never reaches the
second, instead of the claimed locally-handled drop (`skipped`). -/
theorem c5_counterexample :
    runFrames
      [(⟨"\x7b\"a\": \"b\"\x7d", Except.ok (JValue.jobj [("a", JValue.jstr "b")])⟩,
        JValue.jnum 0),
       (⟨"\x7b...\x7d",
         Except.ok (JValue.jobj [("msg", JValue.jstr "k v"), ("_sender_id", JValue.jnum 3)])⟩,
        JValue.jnum 1)] =
      [StepOutcome.raised (PyError.keyError "msg")] ∧
    StepOutcome.raised (PyError.keyError "msg") ≠ StepOutcome.skipped :=
  ⟨rfl, fun h => StepOutcome.noConfusion h⟩

/-- C5 (amended): for every frame that parses as a JSON object without a
`msg` field, `parse_message` raises `KeyError` for `msg`; `parse_and_publish`
only catches `json.JSONDecodeError`, so the error propagates out of the loop
iteration and aborts the pipeline instead of being handled locally. -/
theorem c5_missing_msg_uncaught (data : Dict) (hm : dictGet data "msg" = none)
    (fr : Frame) (tstamp : JValue) (c : Char) (cs : List Char)
    (hraw : fr.raw.data = c :: cs) (hc : c ≠ '*')
    (hp : fr.parsed = Except.ok (JValue.jobj data)) :
    parse_message fr.parsed = Except.error (PyError.keyError "msg") ∧
    loopStep fr tstamp = StepOutcome.raised (PyError.keyError "msg") := by
  have h1 : parse_message fr.parsed = Except.error (PyError.keyError "msg") := by
    rw [hp]
    exact parse_message_of_no_msg data hm
  refine ⟨h1, ?_⟩
  rw [loopStep_nonmarker fr tstamp c cs hraw hc]
  simp [parse_and_publish, h1]

/-- Witness for C5 (amended) at the concrete msg-less object frame. -/
theorem c5_witness :
    loopStep ⟨"\x7b\"a\": \"b\"\x7d", Except.ok (JValue.jobj [("a", JValue.jstr "b")])⟩
        (JValue.jnum 0) =
      StepOutcome.raised (PyError.keyError "msg") :=
  (c5_missing_msg_uncaught [("a", JValue.jstr "b")] rfl
    ⟨"\x7b\"a\": \"b\"\x7d", Except.ok (JValue.jobj [("a", JValue.jstr "b")])⟩
    (JValue.jnum 0) '\x7b' ("\"a\": \"b\"\x7d").data rfl (by decide) rfl).2

/-- C6: a frame that parses as JSON but not to an object raises an uncaught
`TypeError` at `data['msg']` and terminates the loop (first conjunct).
For a frame that is not parseable as JSON at all, the handler for
`json.JSONDecodeError` evidently intends to skip it, and under that intended
behavior the next valid frame is processed normally (second conjunct) — but
the handler's `continue` sits outside any loop, which is a Python
`SyntaxError`, so the module cannot even load. -/
theorem c6_nonobject_frame_crashes :
    loopStep ⟨"[1, 2]", Except.ok (JValue.jarr [JValue.jnum 1, JValue.jnum 2])⟩ (JValue.jnum 0) =
      StepOutcome.raised PyError.typeError ∧
    runFrames
      [(⟨"not json", Except.error ()⟩, JValue.jnum 0),
       (⟨"\x7b...\x7d",
         Except.ok (JValue.jobj [("msg", JValue.jstr "k v"), ("_sender_id", JValue.jnum 3)])⟩,
        JValue.jnum 1)] =
      [StepOutcome.skipped,
       StepOutcome.published "home/radio/client3"
         [("_sender_id", JValue.jnum 3), ("k", JValue.jstr "v"), ("_timestamp", JValue.jnum 1)]] :=
  ⟨rfl, rfl⟩

/-- C7 counterexample: a decoded event without `_sender_id` makes the loop
iteration raise `KeyError` for the key; the run over the two-frame sequence
aborts at the first frame — the event is not merely dropped and the second
frame is never processed. -/
theorem c7_counterexample :
    runFrames
      [(⟨"\x7b...\x7d", Except.ok (JValue.jobj [("msg", JValue.jstr "a b")])⟩, JValue.jnum 0),
       (⟨"\x7b...\x7d",
         Except.ok (JValue.jobj [("msg", JValue.jstr "k v"), ("_sender_id", JValue.jnum 3)])⟩,
        JValue.jnum 1)] =
      [StepOutcome.raised (PyError.keyError "_sender_id")] ∧
    StepOutcome.raised (PyError.keyError "_sender_id") ≠ StepOutcome.skipped :=
  ⟨rfl, fun h => StepOutcome.noConfusion h⟩

/-- C7 (amended): for every decoded event lacking `_sender_id`, topic
derivation raises `KeyError` for `_sender_id`; the event is not published,
and the uncaught error propagates out of the loop iteration (terminating the
pipeline) instead of the event being dropped with the pipeline continuing. -/
theorem c7_missing_sender_uncaught (parsed : Except Unit JValue) (tstamp : JValue) (ev : Dict)
    (hpm : parse_message parsed = Except.ok ev)
    (hs : dictGet ev "_sender_id" = none) :
    parse_and_publish parsed tstamp = StepOutcome.raised (PyError.keyError "_sender_id") ∧
    ∀ topic payload, parse_and_publish parsed tstamp ≠ StepOutcome.published topic payload := by
  have h1 := parse_and_publish_no_sender parsed tstamp ev hpm hs
  refine ⟨h1, fun topic payload h => ?_⟩
  rw [h1] at h
  exact StepOutcome.noConfusion h

/-- Witness for C7 (amended) at the concrete sender-less event. -/
theorem c7_witness :
    parse_and_publish (Except.ok (JValue.jobj [("msg", JValue.jstr "a b")])) (JValue.jnum 0) =
      StepOutcome.raised (PyError.keyError "_sender_id") :=
  (c7_missing_sender_uncaught (Except.ok (JValue.jobj [("msg", JValue.jstr "a b")]))
    (JValue.jnum 0) [("a", JValue.jstr "b")] rfl rfl).1

/-- C8: each iteration of the `while elements:` loop in `parse_message`
consumes at least one token (the remaining list is strictly shorter), and the
recursive `pairUp` unfolds exactly one loop iteration at a time — so the loop
is well-founded and terminates on every finite token list. -/
theorem c8_pairing_loop_terminates (data : Dict) (elements : List String) (h : elements ≠ []) :
    (loopBody data elements).2.length < elements.length ∧
    pairUp data elements = pairUp (loopBody data elements).1 (loopBody data elements).2 := by
  match elements with
  | [] => exact absurd rfl h
  | [a] => exact ⟨by simp [loopBody], rfl⟩
  | a :: b :: l => exact ⟨by simp only [loopBody, List.length_cons]; omega, rfl⟩

/-- Witness for C8 at a concrete three-token list. -/
theorem c8_witness :
    (loopBody [] ["a", "b", "c"]).2.length < (["a", "b", "c"] : List String).length ∧
    pairUp [] ["a", "b", "c"] =
      pairUp (loopBody [] ["a", "b", "c"]).1 (loopBody [] ["a", "b", "c"]).2 :=
  c8_pairing_loop_terminates [] ["a", "b", "c"] (by decide)

/-- C9: removal of the free-text field is not an output invariant of decode:
the record whose `msg` value contains the token `msg` decodes to an event
that again contains a key named `msg`, reintroduced by the expansion after
the original field was deleted. -/
theorem c9_msg_key_reintroduced :
    parse_message (Except.ok (JValue.jobj [("msg", JValue.jstr "msg hello")])) =
      Except.ok [("msg", JValue.jstr "hello")] ∧
    dictContains [("msg", JValue.jstr "hello")] "msg" = true :=
  ⟨rfl, rfl⟩

/-- C10: the diagnostic-marker test `line[0] == "*"` indexes position 0 of
every line unconditionally: on the empty line the loop iteration takes the
out-of-bounds branch (`IndexError`), and that branch is taken only for the
empty line — every non-empty frame avoids it. -/
theorem c10_empty_line_index_error (fr : Frame) (tstamp : JValue) :
    (fr.raw.data = [] → loopStep fr tstamp = StepOutcome.raised PyError.indexError) ∧
    (fr.raw.data ≠ [] → loopStep fr tstamp ≠ StepOutcome.raised PyError.indexError) := by
  constructor
  · intro h
    simp [loopStep, h]
  · intro h
    rcases hd : fr.raw.data with _ | ⟨c, cs⟩
    · exact absurd hd h
    · by_cases hc : c = '*'
      · simp [loopStep, hd, hc]
      · rw [loopStep_nonmarker fr tstamp c cs hd hc]
        exact parse_and_publish_ne_raised_indexError fr.parsed tstamp

/-- Witness for C10 at the empty frame. -/
theorem c10_witness :
    loopStep ⟨"", Except.error ()⟩ (JValue.jnum 0) = StepOutcome.raised PyError.indexError :=
  (c10_empty_line_index_error ⟨"", Except.error ()⟩ (JValue.jnum 0)).1 rfl

end SerialBridge
